import Mathlib

/-!
Verification of the Lucien document-processing engine.

Each Python function under scrutiny is shallowly embedded as an executable
Lean definition: Python `str` values become `List Char` (one element per
Unicode code point, matching Python's character indexing), SQLite tables
become lists of row structures, and wall-clock quantities become rationals.
Theorems below the definitions settle the specification claims.
-/

namespace Lucien

/-- Python strings, modelled as lists of Unicode code points. -/
abbrev PyStr := List Char

/-! ### Text truncation (`ExtractionPipeline._truncate_text`, pipeline.py) -/

/-- The separator inserted between the kept head and tail:
`f"\n\n[... text truncated to {max_length} characters ...]\n\n"`. -/
def truncationMarker (maxLength : Nat) : PyStr :=
  ("\n\n[... text truncated to " ++ toString maxLength ++ " characters ...]\n\n").toList

/-- `ExtractionPipeline._truncate_text`: texts no longer than `maxLength` pass
through; longer texts keep the first `maxLength / 2` and last `maxLength / 2`
characters joined by the marker.  Python `text[-half:]` with `half = 0` denotes
the whole string, hence the inner branch. -/
def truncate_text (text : PyStr) (maxLength : Nat) : PyStr :=
  if text.length ≤ maxLength then text
  else
    text.take (maxLength / 2) ++ truncationMarker maxLength ++
      (if maxLength / 2 = 0 then text else text.drop (text.length - maxLength / 2))

/-- Python truthiness of an `Optional[str]`: `None` and `""` are falsy.  Used
by `complete_run`'s `"failed" if error else "completed"` and by
`should_escalate`'s `not date or not issuer`. -/
def pyStrFalsy : Option String → Bool
  | none => true
  | some s => s == ""

/-! ### Run lifecycle (`Database.create_run` / `Database.complete_run`, db.py) -/

/-- One row of the `runs` table; fields irrelevant to the lifecycle claim
(id, config, started_at) are omitted. -/
structure RunRow where
  run_type : String
  status : String
  completed_at : Option Nat
  error : Option String
deriving DecidableEq

/-- `Database.create_run`: a fresh row with the schema defaults
`status = 'running'`, `completed_at = NULL`. -/
def create_run (ty : String) : RunRow :=
  { run_type := ty, status := "running", completed_at := none, error := none }

/-- `Database.complete_run`: one UPDATE setting `completed_at` to the current
time and `status` per `"failed" if error else "completed"` — Python
truthiness, so a `None` or empty-string error completes the run. -/
def complete_run (now : Nat) (error : Option String) (r : RunRow) : RunRow :=
  { r with
    status := if pyStrFalsy error then "completed" else "failed"
    completed_at := some now
    error := error }

/-- Run rows reachable through the two lifecycle operations. -/
inductive RunReachable : RunRow → Prop
  | created (ty : String) : RunReachable (create_run ty)
  | completed (now : Nat) (e : Option String) {r : RunRow} :
      RunReachable r → RunReachable (complete_run now e r)

/-! ### Hung-worker classification (`extract` supervisor loop, cli.py) -/

/-- `HUNG_WORKER_TIMEOUT = 600.0` seconds. -/
def HUNG_WORKER_TIMEOUT : ℚ := 600

/-- The three supervisor states for an in-flight task. -/
inductive WorkerTaskState
  | processing
  | processingSlow
  | hung
deriving DecidableEq

/-- The supervisor's per-task classification in cli.py:
`if elapsed > HUNG_WORKER_TIMEOUT: hung elif elapsed > 120.0: processing-slow
else: processing`. -/
def classify_worker (elapsed : ℚ) : WorkerTaskState :=
  if elapsed > HUNG_WORKER_TIMEOUT then .hung
  else if elapsed > 120 then .processingSlow
  else .processing

/-! ### LLM labeling (llm/client.py, llm/models.py) -/

/-- `LabelOutput` (llm/models.py): the validated LLM response schema.
Confidence is a rational standing in for the Python float; the schema's
`Field(ge=0.0, le=1.0)` bound on it is captured by
`LabelOutput.schemaValid` below, and every label `label_document` produces
satisfies it. -/
structure LabelOutput where
  doc_type : String
  title : String
  canonical_filename : String
  suggested_tags : List String
  target_group_path : String
  date : Option String
  issuer : Option String
  source : Option String
  confidence : ℚ
  why : String
deriving DecidableEq

/-- The pydantic bound on `confidence`: `Field(..., ge=0.0, le=1.0)`
(llm/models.py).  Labels parsed by `label_document` always satisfy it. -/
def LabelOutput.schemaValid (r : LabelOutput) : Prop :=
  0 ≤ r.confidence ∧ r.confidence ≤ 1

instance (r : LabelOutput) : Decidable r.schemaValid := by
  unfold LabelOutput.schemaValid
  exact inferInstance

/-- The LLM settings consulted by the escalation logic (config.py). -/
structure LLMSettings where
  escalation_threshold : ℚ
  escalation_doc_types : List String
deriving DecidableEq

/-- An ASCII apostrophe (code point 39), the quote used by the
auto-correction note. -/
def apostrophe : String := String.singleton (Char.ofNat 39)

/-- The vocabulary check at the end of `LLMClient.label_document`: a parsed,
schema-valid label whose `doc_type` is not in `available_doc_types` is
rewritten to `"other"` and its explanation is prefixed with
`[Auto-corrected from <quoted original>] `; in-vocabulary labels pass through
unchanged. -/
def validate_doc_type (available_doc_types : List String) (label : LabelOutput) : LabelOutput :=
  if label.doc_type ∈ available_doc_types then label
  else
    { label with
      doc_type := "other"
      why := "[Auto-corrected from " ++ apostrophe ++ label.doc_type ++ apostrophe
               ++ "] " ++ label.why }

/-- The doc types for which a missing date or issuer forces escalation
(`LLMClient.should_escalate`). -/
def criticalFieldDocTypes : List String :=
  ["financial", "tax", "medical", "insurance", "legal"]

/-- `LLMClient.should_escalate`.  The three Python `if` statements appear in
order; note the missing-fields test uses Python truthiness (`not date or not
issuer`), so an empty string counts as missing. -/
def should_escalate (cfg : LLMSettings) (initial_result : Option LabelOutput) : Bool :=
  match initial_result with
  | none => false
  | some r =>
    if r.doc_type ∈ cfg.escalation_doc_types then true
    else if r.confidence < cfg.escalation_threshold then true
    else if pyStrFalsy r.date || pyStrFalsy r.issuer then
      if r.doc_type ∈ criticalFieldDocTypes then true else false
    else false

/-- `LLMClient.label_with_escalation`, with `label_document` abstracted as a
function from the `use_escalation` flag to the label it returns. -/
def label_with_escalation (cfg : LLMSettings)
    (label_document : Bool → LabelOutput) : LabelOutput × Bool :=
  if should_escalate cfg (some (label_document false)) then
    (label_document true, true)
  else (label_document false, false)

/-- The escalation condition as claim C5 words it: sensitive doc type, low
confidence, or a critical-field doc type whose date or issuer is *null*. -/
def claimed_escalation_condition (cfg : LLMSettings) (r : LabelOutput) : Prop :=
  r.doc_type ∈ cfg.escalation_doc_types ∨
  r.confidence < cfg.escalation_threshold ∨
  (r.doc_type ∈ criticalFieldDocTypes ∧ (r.date = none ∨ r.issuer = none))

instance (cfg : LLMSettings) (r : LabelOutput) :
    Decidable (claimed_escalation_condition cfg r) := by
  unfold claimed_escalation_condition
  exact inferInstance

/-- The escalation condition actually implemented: as the claimed one, but a
date or issuer that is null *or empty* triggers the critical-field clause. -/
def code_escalation_condition (cfg : LLMSettings) (r : LabelOutput) : Prop :=
  r.doc_type ∈ cfg.escalation_doc_types ∨
  r.confidence < cfg.escalation_threshold ∨
  ((pyStrFalsy r.date = true ∨ pyStrFalsy r.issuer = true) ∧
    r.doc_type ∈ criticalFieldDocTypes)

/-- Settings used to exercise the escalation boundary: no always-escalate
types beyond the defaults, threshold 1. -/
def cfgC5 : LLMSettings :=
  { escalation_threshold := 1
    escalation_doc_types := ["taxes", "medical", "legal", "insurance"] }

/-- A schema-valid financial label — confidence 1, the maximum the pydantic
bound admits and not below the threshold — whose date is the *empty string*
(not null). -/
def labelC5 : LabelOutput :=
  { doc_type := "financial"
    title := "Bank statement"
    canonical_filename := "2024-01-31__Financial__Bank__Statement"
    suggested_tags := []
    target_group_path := "03 Financial"
    date := some ""
    issuer := some "Bank"
    source := none
    confidence := 1
    why := "clear statement" }

/-- A stand-in `label_document`: the escalation model returns a variant label
so the two calls are distinguishable. -/
def docC5 : Bool → LabelOutput :=
  fun use_escalation =>
    if use_escalation then { labelC5 with title := "Bank statement (large model)" }
    else labelC5

/-! ### Extraction work-queue (`Database.get_files_for_extraction`, db.py) -/

/-- A row of the `files` table, restricted to the columns the query selects. -/
structure DbFileRow where
  id : Nat
  path : String
  sha256 : String
deriving DecidableEq

/-- A row of the `extractions` table, restricted to the columns the query
inspects. -/
structure DbExtractionRow where
  id : Nat
  file_id : Nat
  status : String
deriving DecidableEq

/-- The `LEFT JOIN extractions e ON f.id = e.file_id AND e.status = 'success'
... WHERE e.id IS NULL` test: does any extraction row for this file, from any
run, have status `success`? -/
def hasSuccessExtraction (extractions : List DbExtractionRow) (f : DbFileRow) : Bool :=
  extractions.any fun e => e.file_id == f.id && e.status == "success"

/-- ASCII lowercasing, as both SQLite `LOWER` and Python `.lower()` act on the
ASCII extension patterns involved. -/
def sqlLower (s : List Char) : List Char := s.map Char.toLower

/-- Does `s` end with `suffixChars`?  (Nat subtraction clamps at zero; when
`suffixChars` is longer than `s` the compared slice is all of `s` and the
lengths differ, so the test is false.) -/
def endsWithChars (s suffixChars : List Char) : Bool :=
  s.drop (s.length - suffixChars.length) == suffixChars

/-- The skip filter `LOWER(f.path) NOT LIKE '%<ext.lower()>'`, negated: the
lowercased path ends with the lowercased extension.  The configured patterns
contain no LIKE wildcards, so `LIKE '%<ext>'` is an ends-with test. -/
def matchesSkipExtension (skip_extensions : List String) (path : String) : Bool :=
  skip_extensions.any fun ext =>
    endsWithChars (sqlLower path.toList) (sqlLower ext.toList)

/-- Row order `ORDER BY f.path`. -/
def pathLe (a b : DbFileRow) : Prop := a.path ≤ b.path

instance : DecidableRel pathLe :=
  fun a b => inferInstanceAs (Decidable (a.path ≤ b.path))

instance : IsTotal DbFileRow pathLe := ⟨fun a b => le_total a.path b.path⟩

instance : IsTrans DbFileRow pathLe := ⟨fun _ _ _ hab hbc => le_trans hab hbc⟩

/-- `Database.get_files_for_extraction` with `force=False` and no pagination:
the files with no successful extraction in any run, minus skip-listed paths,
ordered by path. -/
def get_files_for_extraction (files : List DbFileRow)
    (extractions : List DbExtractionRow) (skip_extensions : List String) :
    List DbFileRow :=
  (files.filter fun f =>
      !hasSuccessExtraction extractions f &&
      !matchesSkipExtension skip_extensions f.path).insertionSort pathLe

/-! ### Extractor chain (`ExtractionPipeline.extract_file`, pipeline.py) -/

/-- `ExtractionResult` (extractors/__init__.py); the `metadata` dict is
irrelevant to the claims and omitted. -/
structure PyResult where
  status : String
  method : String
  text : Option PyStr := none
  output_path : Option String := none
  error : Option String := none
deriving DecidableEq

/-- One registered extractor: its `can_extract` test and `extract` body, as
functions of the file path. -/
structure PyExtractor where
  name : String
  canExtract : String → Bool
  extract : String → PyResult

/-- The last path component (`pathlib.PurePath.name`, for ordinary file
paths). -/
def pyPathName (path : String) : PyStr :=
  path.toList.foldl (fun acc c => if c = '/' then [] else acc ++ [c]) []

/-- The index of the last dot in a name, if any (`name.rfind('.')` when the
result is not `-1`). -/
def lastDotIdx (name : PyStr) : Option Nat :=
  (name.enum.filter fun p => p.2 == '.').foldl (fun _ p => some p.1) none

/-- `pathlib.PurePath.suffix`: `name[i:]` for the last dot index `i` when
`0 < i < len(name) - 1`, else the empty string (so dotless names, leading-dot
names like `.bashrc`, and trailing-dot names have no suffix). -/
def py_suffix (path : String) : String :=
  match lastDotIdx (pyPathName path) with
  | some i =>
      if 0 < i ∧ i < (pyPathName path).length - 1 then
        String.mk ((pyPathName path).drop i)
      else ""
  | none => ""

/-- Python `str.lower()` restricted to its ASCII action, which covers the
extension strings involved. -/
def pyLowerStr (s : String) : String := String.mk (sqlLower s.toList)

/-- `ExtractionPipeline._should_skip_file`: the lowercased suffix is in the
configured skip list. -/
def should_skip_file (skip_extensions : List String) (path : String) : Bool :=
  skip_extensions.contains (pyLowerStr (py_suffix path))

/-- The extraction settings consulted by the pipeline. -/
structure ExtractionConfig where
  skip_extensions : List String
  max_text_length : Nat
  extracted_text_dir : String

/-- `ExtractionPipeline._get_sidecar_path`:
`<extracted_text_dir>/<sha256>.txt.gz`. -/
def get_sidecar_path (cfg : ExtractionConfig) (sha256 : String) : String :=
  cfg.extracted_text_dir ++ "/" ++ sha256 ++ ".txt.gz"

/-- Python f-string rendering of an `Optional[str]`: `None` renders as the
four-character word. -/
def pyShowOptStr : Option String → String
  | none => "None"
  | some s => s

/-- The success branch of `extract_file`: non-empty text is truncated and
written to the content-addressed sidecar, the in-memory text is dropped
(`del result.text` falls back to the dataclass default `None`) and
`output_path` is set; `None` or empty text leaves the result untouched and
writes nothing.  The second component records the sidecar writes performed. -/
def process_success (cfg : ExtractionConfig) (sha256 : String)
    (result : PyResult) : PyResult × List (String × PyStr) :=
  match result.text with
  | some t =>
      if t.length ≠ 0 then
        ({ result with
             text := none
             output_path := some (get_sidecar_path cfg sha256) },
         [(get_sidecar_path cfg sha256, truncate_text t cfg.max_text_length)])
      else (result, [])
  | none => (result, [])

/-- The fallback loop of `extract_file`: extractors run in order, the first
success result is post-processed and returned, each failure's error is
remembered, and exhausting the list yields the aggregated failure. -/
def try_extractors (cfg : ExtractionConfig) (sha256 path : String) :
    Option String → List PyExtractor → PyResult × List (String × PyStr)
  | last_error, [] =>
      ({ status := "failed", method := "all",
         error := some ("All extractors failed. Last error: "
                          ++ pyShowOptStr last_error) }, [])
  | _, ext :: rest =>
      let result := ext.extract path
      if result.status = "success" then process_success cfg sha256 result
      else try_extractors cfg sha256 path result.error rest

/-- `ExtractionPipeline.extract_file`: skip-listed extensions short-circuit,
an empty matching-extractor set is skipped, otherwise the fallback chain
runs over the registry entries whose `can_extract` accepts the path. -/
def extract_file (cfg : ExtractionConfig) (registry : List PyExtractor)
    (path sha256 : String) : PyResult × List (String × PyStr) :=
  if should_skip_file cfg.skip_extensions path then
    ({ status := "skipped", method := "none",
       error := some ("Extension " ++ py_suffix path ++ " in skip list") }, [])
  else if (registry.filter fun e => e.canExtract path).isEmpty then
    ({ status := "skipped", method := "none",
       error := some "No extractor available for this file type" }, [])
  else
    try_extractors cfg sha256 path none (registry.filter fun e => e.canExtract path)

/-- An always-matching extractor that fails, like the PyPDF extractor on an
unreadable PDF. -/
def extFail : PyExtractor :=
  { name := "pypdf"
    canExtract := fun _ => true
    extract := fun _ =>
      { status := "failed", method := "pypdf", error := some "No text extracted" } }

/-- An always-matching extractor that succeeds with non-empty text. -/
def extOk : PyExtractor :=
  { name := "text"
    canExtract := fun _ => true
    extract := fun _ =>
      { status := "success", method := "text", text := some "hello world".toList } }

/-- A concrete extraction configuration with the default limits. -/
def cfgC4 : ExtractionConfig :=
  { skip_extensions := [".jpg", ".png"]
    max_text_length := 50000
    extracted_text_dir := "/store" }

/-! ### Scan upsert idempotence (`Database.insert_file`, `FileScanner.scan`) -/

/-- A `files` row restricted to the upserted columns; `id` and `created_at`
are untouched by the conflict clause and omitted. -/
structure ScanFileRow where
  path : String
  sha256 : String
  size : Nat
  mime_type : Option String
  mtime : Int
  ctime : Int
  scan_run_id : Nat
deriving DecidableEq

/-- What `FileScanner.scan_file` computes about one path: the streamed hash of
the bytes, the stat fields, and the guessed MIME type.  An unchanged source
tree is modelled by a fixed function from paths to this metadata — the digest
is a deterministic hash of the unchanged bytes, so a rescan recomputes the
same values. -/
structure FileMeta where
  sha256 : String
  size : Nat
  mime_type : Option String
  mtime : Int
  ctime : Int
deriving DecidableEq

/-- The row `scan_file` builds for a path under a given scan run. -/
def metaRow (p : String) (m : FileMeta) (run : Nat) : ScanFileRow :=
  { path := p, sha256 := m.sha256, size := m.size, mime_type := m.mime_type,
    mtime := m.mtime, ctime := m.ctime, scan_run_id := run }

/-- `Database.insert_file`: `INSERT ... ON CONFLICT(path) DO UPDATE SET
sha256/size/mime_type/mtime/ctime/scan_run_id = excluded...` — the rows with
the conflicting path (unique in practice) are rewritten, else a new row is
appended. -/
def insert_file (tbl : List ScanFileRow) (r : ScanFileRow) : List ScanFileRow :=
  if tbl.any (fun row => row.path == r.path) then
    tbl.map fun row => if row.path == r.path then r else row
  else tbl ++ [r]

/-- `FileScanner.scan`: walk the tree and upsert each path's freshly computed
row under the scan run. -/
def scan_run (meta : String → FileMeta) (run : Nat)
    (tbl : List ScanFileRow) (tree : List String) : List ScanFileRow :=
  tree.foldl (fun t p => insert_file t (metaRow p (meta p) run)) tbl

/-! ### Directory walk (`FileScanner.iter_files`, scanner.py) -/

/-- What a directory entry resolves to (`is_dir()` / `is_file()` follow
symlinks). -/
inductive EntryKind
  | dirEntry
  | fileEntry
  | otherEntry
deriving DecidableEq

/-- One directory entry: its name, what it resolves to, whether the entry
itself is a symlink, and the inode it resolves to. -/
structure FSEntry where
  name : String
  kind : EntryKind
  isSymlink : Bool
  target : Nat
deriving DecidableEq

/-- A filesystem: each inode's ordered directory listing.  Symlink entries
may point anywhere, including at ancestors — that is how cycles arise. -/
structure Filesystem where
  entries : Nat → List FSEntry

/-- One directory level of `_walk`: in `iterdir` order, recurse into
directory entries (pruning skip-named directories, and symlinked ones unless
`follow_symlinks` is set) and yield file entries (again skipping symlinks
unless followed).  `recur` is the walk one fuel step down; `none` signals
exhausted fuel. -/
def walk_entries (recur : Nat → String → Option (List String))
    (follow : Bool) (skipDirs : List String) (pfx : String) :
    List FSEntry → Option (List String)
  | [] => some []
  | e :: rest =>
    match e.kind with
    | .dirEntry =>
      if e.name ∈ skipDirs then walk_entries recur follow skipDirs pfx rest
      else if follow || !e.isSymlink then
        match recur e.target (pfx ++ "/" ++ e.name),
              walk_entries recur follow skipDirs pfx rest with
        | some sub, some restFiles => some (sub ++ restFiles)
        | _, _ => none
      else walk_entries recur follow skipDirs pfx rest
    | .fileEntry =>
      if follow || !e.isSymlink then
        (walk_entries recur follow skipDirs pfx rest).map
          (fun restFiles => (pfx ++ "/" ++ e.name) :: restFiles)
      else walk_entries recur follow skipDirs pfx rest
    | .otherEntry => walk_entries recur follow skipDirs pfx rest

/-- The fuel-indexed recursive walker underlying `iter_files`; `some` is a
completed traversal, `none` means the fuel ran out before it finished. -/
def walk_dir (fs : Filesystem) (follow : Bool) (skipDirs : List String) :
    Nat → Nat → String → Option (List String)
  | 0, _, _ => none
  | fuel + 1, node, pfx =>
      walk_entries (fun t p => walk_dir fs follow skipDirs fuel t p)
        follow skipDirs pfx (fs.entries node)

/-- A two-directory filesystem containing a symlink cycle: inode 0 holds the
real subdirectory `docs` (inode 1), which holds a symlink `loop` back to
inode 0 and a regular file. -/
def fsC9 : Filesystem :=
  ⟨fun n =>
    if n = 0 then [{ name := "docs", kind := .dirEntry, isSymlink := false, target := 1 }]
    else if n = 1 then
      [{ name := "loop", kind := .dirEntry, isSymlink := true, target := 0 },
       { name := "notes.txt", kind := .fileEntry, isSymlink := false, target := 7 }]
    else []⟩

/-- A depth measure on `fsC9` decreasing along its non-symlink directory
edges. -/
def depthC9 : Nat → Nat := fun n => if n = 0 then 1 else 0

/-- Concrete file rows exercising the work-queue query. -/
def filesC2 : List DbFileRow :=
  [{ id := 1, path := "/src/b/report.pdf", sha256 := "d1" },
   { id := 2, path := "/src/a/old.pdf", sha256 := "d2" }]

/-- Concrete extraction rows: file 2 succeeded in an earlier run. -/
def extractionsC2 : List DbExtractionRow :=
  [{ id := 10, file_id := 2, status := "failed" },
   { id := 11, file_id := 2, status := "success" }]

end Lucien

namespace Lucien

/-! ## Theorems -/

/-- Helper: the truncation marker is 43 characters plus the decimal rendering
of the maximum. -/
theorem truncationMarker_length (maxLength : Nat) :
    (truncationMarker maxLength).length = 43 + (toString maxLength).length := by
  have h : (truncationMarker maxLength).length =
      ("\n\n[... text truncated to " ++ toString maxLength ++ " characters ...]\n\n").length := rfl
  rw [h, String.length_append, String.length_append]
  have h1 : ("\n\n[... text truncated to " : String).length = 25 := rfl
  have h2 : (" characters ...]\n\n" : String).length = 18 := rfl
  omega

/-- C1 (counterexample): truncating the 6-character text `abcdef` to a maximum
of 4 characters yields a string of length 48, not at most 4 — the head and
tail are joined by a marker whose length is not budgeted against the maximum. -/
theorem truncate_text_exceeds_max :
    ¬ ((truncate_text ("abcdef".toList) 4).length ≤ 4) := by
  decide

/-- C1 (amended): for a maximum of at least 2, the truncated text has length at
most `max_text_length` plus the marker length (43 + digits of the maximum);
the bound `max_text_length` alone is exceeded whenever truncation occurs. -/
theorem truncate_text_length_le (text : PyStr) (maxLength : Nat)
    (h : 2 ≤ maxLength) :
    (truncate_text text maxLength).length ≤
      maxLength + (truncationMarker maxLength).length := by
  unfold truncate_text
  split
  · omega
  · rename_i hlen
    push_neg at hlen
    rw [if_neg (show ¬ maxLength / 2 = 0 by omega)]
    simp only [List.length_append, List.length_take, List.length_drop]
    omega

/-- Witness for the amended C1 bound at a concrete input. -/
theorem truncate_text_length_le_witness :
    (truncate_text ("abcdef".toList) 4).length ≤ 4 + (truncationMarker 4).length :=
  truncate_text_length_le ("abcdef".toList) 4 (by decide)

/-- C8 (counterexample): completing a run with the empty-string error — which
`scanner.py` passes as `str(e)` for message-less exceptions — sets status
`completed`, not `failed`, although an error argument was given: the code
tests `"failed" if error else "completed"` by Python truthiness. -/
theorem complete_run_empty_error_counterexample :
    (complete_run 7 (some "") (create_run "scan")).status = "completed" ∧
    (complete_run 7 (some "") (create_run "scan")).status ≠ "failed" := by
  exact ⟨by decide, by decide⟩

/-- C8 (amended): `create_run` yields status `running` with null
`completed_at`; `complete_run` sets `completed_at` and the terminal status in
one update, `failed` exactly when a *truthy* (non-null, non-empty) error is
given and `completed` otherwise; consequently every reachable run row has
`completed_at` set if and only if its status is terminal. -/
theorem run_lifecycle :
    (∀ ty, (create_run ty).status = "running" ∧ (create_run ty).completed_at = none) ∧
    (∀ now e r, (complete_run now e r).completed_at = some now ∧
      (complete_run now e r).status =
        if pyStrFalsy e then "completed" else "failed") ∧
    (∀ r, RunReachable r →
      (r.completed_at.isSome ↔ (r.status = "completed" ∨ r.status = "failed"))) := by
  refine ⟨fun ty => ⟨rfl, rfl⟩, fun now e r => ⟨rfl, rfl⟩, fun r h => ?_⟩
  induction h with
  | created ty => simp [create_run]
  | completed now e h ih =>
    refine iff_of_true rfl ?_
    by_cases hf : pyStrFalsy e = true
    · left
      simp [complete_run, hf]
    · right
      simp [complete_run, hf]

/-- Witness: the lifecycle invariant evaluated on the concrete row obtained by
completing a fresh scan run with an error. -/
theorem run_lifecycle_witness :
    ((complete_run 7 (some "boom") (create_run "scan")).completed_at.isSome ↔
      ((complete_run 7 (some "boom") (create_run "scan")).status = "completed" ∨
       (complete_run 7 (some "boom") (create_run "scan")).status = "failed")) :=
  run_lifecycle.2.2 _ (RunReachable.completed 7 (some "boom") (RunReachable.created "scan"))

/-- C3 (counterexample): a task whose elapsed time is exactly 600.0 s is
classified `processing-slow`, not `hung` — the supervisor's comparison is
strict (`elapsed > HUNG_WORKER_TIMEOUT`). -/
theorem classify_worker_at_600 :
    classify_worker 600 = WorkerTaskState.processingSlow := by
  have h1 : ¬ ((600 : ℚ) > HUNG_WORKER_TIMEOUT) := by norm_num [HUNG_WORKER_TIMEOUT]
  have h2 : (600 : ℚ) > 120 := by norm_num
  simp [classify_worker, h1, h2]

/-- C3 (amended): a task is classified `hung` exactly when its elapsed time
strictly exceeds 600.0 s; at exactly 600.0 s and at 599.9 s it is
`processing-slow`. -/
theorem classify_worker_hung_iff :
    (∀ elapsed : ℚ, classify_worker elapsed = WorkerTaskState.hung ↔
      HUNG_WORKER_TIMEOUT < elapsed) ∧
    classify_worker 600 = WorkerTaskState.processingSlow ∧
    classify_worker (5999 / 10) = WorkerTaskState.processingSlow := by
  refine ⟨fun elapsed => ?_, ?_, ?_⟩
  · unfold classify_worker
    split
    · simpa using ‹elapsed > HUNG_WORKER_TIMEOUT›
    · split <;> simp_all
  · have h1 : ¬ ((600 : ℚ) > HUNG_WORKER_TIMEOUT) := by norm_num [HUNG_WORKER_TIMEOUT]
    have h2 : (600 : ℚ) > 120 := by norm_num
    simp [classify_worker, h1, h2]
  · have h1 : ¬ ((5999 / 10 : ℚ) > HUNG_WORKER_TIMEOUT) := by norm_num [HUNG_WORKER_TIMEOUT]
    have h2 : (5999 / 10 : ℚ) > 120 := by norm_num
    simp [classify_worker, h1, h2]

/-- Helper: `should_escalate` on a present initial result decides exactly the
code's escalation condition. -/
theorem should_escalate_iff (cfg : LLMSettings) (r : LabelOutput) :
    should_escalate cfg (some r) = true ↔ code_escalation_condition cfg r := by
  simp only [should_escalate, code_escalation_condition]
  split_ifs with h1 h2 h3 h4 <;> simp_all

/-- C5 (counterexample): with threshold 1 and the default sensitive types, a
schema-valid financial label of confidence 1 (within the pydantic
`ge=0.0, le=1.0` bound and not below the threshold) whose date is the empty
string (non-null) and whose issuer is non-null escalates, although the
claim's predicate — which requires a *null* date or issuer — does not hold. -/
theorem label_with_escalation_claim_counterexample :
    (docC5 false).schemaValid ∧
    (label_with_escalation cfgC5 docC5).2 = true ∧
    ¬ claimed_escalation_condition cfgC5 (docC5 false) := by
  exact ⟨by decide, by decide, by decide⟩

/-- C5 (amended): the default model is invoked once producing R0; escalation
(re-invoking with the escalation model and returning escalated=true) happens
if and only if R0's doc type is in the configured escalation set, or R0's
confidence is strictly below the threshold, or R0's doc type is one of
financial/tax/medical/insurance/legal and R0's date or issuer is null *or
empty*; otherwise (R0, escalated=false) is returned. -/
theorem label_with_escalation_spec (cfg : LLMSettings) (doc : Bool → LabelOutput) :
    ((label_with_escalation cfg doc).2 = true ↔
      code_escalation_condition cfg (doc false)) ∧
    ((label_with_escalation cfg doc).2 = true →
      (label_with_escalation cfg doc).1 = doc true) ∧
    ((label_with_escalation cfg doc).2 = false →
      (label_with_escalation cfg doc).1 = doc false) := by
  refine ⟨?_, ?_, ?_⟩
  · rw [← should_escalate_iff]
    unfold label_with_escalation
    split_ifs with h <;> simp [h]
  · unfold label_with_escalation
    split_ifs with h <;> simp
  · unfold label_with_escalation
    split_ifs with h <;> simp

/-- Witness: the concrete escalating run returns the escalation model's
label. -/
theorem label_with_escalation_spec_witness :
    (label_with_escalation cfgC5 docC5).1 = docC5 true :=
  (label_with_escalation_spec cfgC5 docC5).2.1 (by decide)

/-- C6: a schema-valid label with an out-of-vocabulary doc type is returned
with doc type `other` and the original explanation prepended with the
auto-correction note; an in-vocabulary label is returned unchanged; hence
every returned label's doc type is in the vocabulary or equals `other`. -/
theorem validate_doc_type_spec (vocab : List String) (label : LabelOutput) :
    (label.doc_type ∈ vocab → validate_doc_type vocab label = label) ∧
    (label.doc_type ∉ vocab →
      (validate_doc_type vocab label).doc_type = "other" ∧
      (validate_doc_type vocab label).why =
        "[Auto-corrected from " ++ apostrophe ++ label.doc_type ++ apostrophe
          ++ "] " ++ label.why) ∧
    ((validate_doc_type vocab label).doc_type ∈ vocab ∨
      (validate_doc_type vocab label).doc_type = "other") := by
  unfold validate_doc_type
  split_ifs with h <;> simp [h]

/-- Witness: rewriting a concrete out-of-vocabulary label. -/
theorem validate_doc_type_spec_witness :
    (validate_doc_type ["financial", "tax", "other"]
        { labelC5 with doc_type := "invented_type" }).doc_type = "other" ∧
    (validate_doc_type ["financial", "tax", "other"]
        { labelC5 with doc_type := "invented_type" }).why =
      "[Auto-corrected from " ++ apostrophe ++
        ({ labelC5 with doc_type := "invented_type" } : LabelOutput).doc_type ++
        apostrophe ++ "] " ++ labelC5.why :=
  (validate_doc_type_spec ["financial", "tax", "other"]
    { labelC5 with doc_type := "invented_type" }).2.1 (by decide)

/-- C2: the force=false work-queue query returns exactly the file rows with no
success extraction row in any run whose lowercased path does not end in a
skip-listed extension, ordered by path; in particular a file with at least one
success extraction row is never returned. -/
theorem get_files_for_extraction_spec (files : List DbFileRow)
    (extractions : List DbExtractionRow) (skip_extensions : List String) :
    (∀ f, f ∈ get_files_for_extraction files extractions skip_extensions ↔
      (f ∈ files ∧ hasSuccessExtraction extractions f = false ∧
        matchesSkipExtension skip_extensions f.path = false)) ∧
    (get_files_for_extraction files extractions skip_extensions).Sorted pathLe ∧
    (∀ f, hasSuccessExtraction extractions f = true →
      f ∉ get_files_for_extraction files extractions skip_extensions) := by
  have hmem : ∀ f, f ∈ get_files_for_extraction files extractions skip_extensions ↔
      (f ∈ files ∧ hasSuccessExtraction extractions f = false ∧
        matchesSkipExtension skip_extensions f.path = false) := by
    intro f
    unfold get_files_for_extraction
    rw [(List.perm_insertionSort pathLe _).mem_iff, List.mem_filter]
    simp
  refine ⟨hmem, List.sorted_insertionSort pathLe _, fun f hs hf => ?_⟩
  have h := (hmem f).mp hf
  rw [hs] at h
  exact absurd h.2.1 (by simp)

/-- Witness: the file with a success extraction row from an earlier run is not
in the concrete work queue. -/
theorem get_files_for_extraction_spec_witness :
    ({ id := 2, path := "/src/a/old.pdf", sha256 := "d2" } : DbFileRow) ∉
      get_files_for_extraction filesC2 extractionsC2 [".jpg"] :=
  (get_files_for_extraction_spec filesC2 extractionsC2 [".jpg"]).2.2 _ (by decide)

/-- Helper: post-processing a success result does not change its status or
method. -/
theorem process_success_status (cfg : ExtractionConfig) (sha256 : String)
    (r : PyResult) :
    (process_success cfg sha256 r).1.status = r.status ∧
    (process_success cfg sha256 r).1.method = r.method := by
  unfold process_success
  rcases r.text with _ | t
  · exact ⟨rfl, rfl⟩
  · by_cases h : t.length ≠ 0 <;> simp [h]

/-- Helper: the fallback loop returns the post-processed result of the first
extractor whose run succeeds. -/
theorem try_extractors_first_success (cfg : ExtractionConfig)
    (sha256 path : String) (le : Option String)
    (pre : List PyExtractor) (w : PyExtractor) (post : List PyExtractor)
    (hpre : ∀ e ∈ pre, (e.extract path).status ≠ "success")
    (hw : (w.extract path).status = "success") :
    try_extractors cfg sha256 path le (pre ++ w :: post) =
      process_success cfg sha256 (w.extract path) := by
  induction pre generalizing le with
  | nil => simp [try_extractors, hw]
  | cons e es ih =>
    have he := hpre e (by simp)
    simp only [List.cons_append, try_extractors, if_neg he]
    exact ih _ (fun x hx => hpre x (by simp [hx]))

/-- Helper: when every extractor in the (nonempty) chain fails, the loop
returns the aggregated failure carrying the last extractor's error. -/
theorem try_extractors_all_fail (cfg : ExtractionConfig)
    (sha256 path : String) (l : List PyExtractor) (le : Option String)
    (last : PyExtractor) (hlast : l.getLast? = some last)
    (hfail : ∀ e ∈ l, (e.extract path).status ≠ "success") :
    try_extractors cfg sha256 path le l =
      ({ status := "failed", method := "all",
         error := some ("All extractors failed. Last error: "
                          ++ pyShowOptStr ((last.extract path).error)) }, []) := by
  induction l generalizing le with
  | nil => simp at hlast
  | cons e es ih =>
    have he := hfail e (by simp)
    cases es with
    | nil =>
      simp only [List.getLast?_singleton, Option.some.injEq] at hlast
      subst hlast
      simp [try_extractors, he]
    | cons e2 es2 =>
      rw [List.getLast?_cons_cons] at hlast
      simp only [try_extractors, if_neg he]
      exact ih ((e.extract path).error) hlast
        (fun x hx => hfail x (List.mem_cons_of_mem e hx))

/-- C4: a skip-listed suffix short-circuits to `skipped` with the extension
message; an empty matching-extractor set yields `skipped` with the
no-extractor message; otherwise the matching extractors run in registration
order, the first success is returned, and if all fail the result is `failed`
with the last error behind the aggregation prefix. -/
theorem extract_file_chain_spec (cfg : ExtractionConfig)
    (registry : List PyExtractor) (path sha256 : String) :
    (should_skip_file cfg.skip_extensions path = true →
      (extract_file cfg registry path sha256).1 =
        { status := "skipped", method := "none",
          error := some ("Extension " ++ py_suffix path ++ " in skip list") }) ∧
    (should_skip_file cfg.skip_extensions path = false →
      (registry.filter fun e => e.canExtract path) = [] →
      (extract_file cfg registry path sha256).1 =
        { status := "skipped", method := "none",
          error := some "No extractor available for this file type" }) ∧
    (∀ pre w post,
      should_skip_file cfg.skip_extensions path = false →
      (registry.filter fun e => e.canExtract path) = pre ++ w :: post →
      (∀ e ∈ pre, (e.extract path).status ≠ "success") →
      (w.extract path).status = "success" →
      extract_file cfg registry path sha256 =
        process_success cfg sha256 (w.extract path) ∧
      (extract_file cfg registry path sha256).1.status = "success") ∧
    (∀ last,
      should_skip_file cfg.skip_extensions path = false →
      (registry.filter fun e => e.canExtract path).getLast? = some last →
      (∀ e ∈ registry.filter fun e => e.canExtract path,
        (e.extract path).status ≠ "success") →
      (extract_file cfg registry path sha256).1 =
        { status := "failed", method := "all",
          error := some ("All extractors failed. Last error: "
                           ++ pyShowOptStr ((last.extract path).error)) }) := by
  refine ⟨fun hskip => ?_, fun hskip hempty => ?_,
    fun pre w post hskip hfilter hpre hw => ?_, fun last hskip hlast hfail => ?_⟩
  · simp [extract_file, hskip]
  · simp [extract_file, hskip, hempty]
  · have hne : ((registry.filter fun e => e.canExtract path).isEmpty) = false := by
      rw [hfilter]; simp
    have heq : extract_file cfg registry path sha256 =
        try_extractors cfg sha256 path none (registry.filter fun e => e.canExtract path) := by
      simp [extract_file, hskip, hne]
    rw [heq, hfilter, try_extractors_first_success cfg sha256 path none pre w post hpre hw]
    refine ⟨rfl, ?_⟩
    rw [(process_success_status cfg sha256 (w.extract path)).1, hw]
  · have hne : ((registry.filter fun e => e.canExtract path).isEmpty) = false := by
      cases h : (registry.filter fun e => e.canExtract path) with
      | nil => rw [h] at hlast; simp at hlast
      | cons a l => simp [h]
    have heq : extract_file cfg registry path sha256 =
        try_extractors cfg sha256 path none (registry.filter fun e => e.canExtract path) := by
      simp [extract_file, hskip, hne]
    rw [heq, try_extractors_all_fail cfg sha256 path _ none last hlast hfail]

/-- Witness: on a pipeline whose first matching extractor fails and whose
second succeeds, the chain returns the post-processed success. -/
theorem extract_file_chain_spec_witness :
    extract_file cfgC4 [extFail, extOk] "/src/notes.txt" "abc123" =
      process_success cfgC4 "abc123" (extOk.extract "/src/notes.txt") ∧
    (extract_file cfgC4 [extFail, extOk] "/src/notes.txt" "abc123").1.status
      = "success" :=
  (extract_file_chain_spec cfgC4 [extFail, extOk] "/src/notes.txt" "abc123").2.2.1
    [extFail] extOk [] (by decide) (by rfl)
    (by
      intro e he
      rw [List.mem_singleton.mp he]
      decide)
    (by rfl)

/-- C10: under the repository's extractors (which never set `output_path`
themselves), a success with non-empty text gets `output_path =
<extracted-text-dir>/<sha256>.txt.gz` — a function of the digest alone — and
the truncated text is written there; a success with `None` or empty text
keeps `output_path = None` and writes no sidecar, so a success extraction can
carry a null sidecar path. -/
theorem extract_file_sidecar_spec (cfg : ExtractionConfig)
    (registry : List PyExtractor) (path sha256 : String)
    (pre : List PyExtractor) (w : PyExtractor) (post : List PyExtractor)
    (hskip : should_skip_file cfg.skip_extensions path = false)
    (hfilter : (registry.filter fun e => e.canExtract path) = pre ++ w :: post)
    (hpre : ∀ e ∈ pre, (e.extract path).status ≠ "success")
    (hw : (w.extract path).status = "success")
    (hop : (w.extract path).output_path = none) :
    (∀ t, (w.extract path).text = some t → t ≠ [] →
      (extract_file cfg registry path sha256).1.output_path =
        some (get_sidecar_path cfg sha256) ∧
      (extract_file cfg registry path sha256).2 =
        [(get_sidecar_path cfg sha256, truncate_text t cfg.max_text_length)]) ∧
    (((w.extract path).text = none ∨ (w.extract path).text = some []) →
      (extract_file cfg registry path sha256).1.output_path = none ∧
      (extract_file cfg registry path sha256).2 = []) ∧
    (extract_file cfg registry path sha256).1.status = "success" := by
  have hne : ((registry.filter fun e => e.canExtract path).isEmpty) = false := by
    rw [hfilter]; simp
  have heq : extract_file cfg registry path sha256 =
      process_success cfg sha256 (w.extract path) := by
    have h1 : extract_file cfg registry path sha256 =
        try_extractors cfg sha256 path none (registry.filter fun e => e.canExtract path) := by
      simp [extract_file, hskip, hne]
    rw [h1, hfilter]
    exact try_extractors_first_success cfg sha256 path none pre w post hpre hw
  rw [heq]
  refine ⟨fun t ht htne => ?_, fun hempty => ?_, ?_⟩
  · simp [process_success, ht, htne]
  · rcases hempty with h | h <;> simp [process_success, h, hop]
  · rw [(process_success_status cfg sha256 (w.extract path)).1, hw]

/-- Witness: the successful text extractor's output lands in the
content-addressed sidecar and is recorded on the result. -/
theorem extract_file_sidecar_spec_witness :
    (extract_file cfgC4 [extOk] "/src/readme.md" "ff01").1.output_path =
      some (get_sidecar_path cfgC4 "ff01") ∧
    (extract_file cfgC4 [extOk] "/src/readme.md" "ff01").2 =
      [(get_sidecar_path cfgC4 "ff01",
        truncate_text ("hello world".toList) cfgC4.max_text_length)] :=
  (extract_file_sidecar_spec cfgC4 [extOk] "/src/readme.md" "ff01" [] extOk []
      (by decide) (by rfl) (by intro e he; simp at he) (by rfl) (by rfl)).1
    ("hello world".toList) (by rfl) (by decide)

/-- Helper: upserting keeps every already-present path present. -/
theorem insert_file_any_mono (tbl : List ScanFileRow) (r : ScanFileRow)
    (q : String) (h : tbl.any (fun row => row.path == q) = true) :
    (insert_file tbl r).any (fun row => row.path == q) = true := by
  unfold insert_file
  split
  · rw [List.any_map, List.any_eq_true]
    rw [List.any_eq_true] at h
    rcases h with ⟨x, hx, hq⟩
    refine ⟨x, hx, ?_⟩
    by_cases hr : (x.path == r.path) = true
    · have h1 : x.path = r.path := by simpa using hr
      have h2 : x.path = q := by simpa using hq
      simp [Function.comp, hr, ← h1, h2]
    · simpa [Function.comp, hr] using hq
  · rw [List.any_append]
    simp [h]

/-- Helper: the upserted row's path is present afterwards. -/
theorem insert_file_any_self (tbl : List ScanFileRow) (r : ScanFileRow) :
    (insert_file tbl r).any (fun row => row.path == r.path) = true := by
  unfold insert_file
  split
  · rename_i h
    rw [List.any_eq_true] at h
    rcases h with ⟨x, hx, hq⟩
    rw [List.any_map, List.any_eq_true]
    exact ⟨x, hx, by simp [Function.comp, hq]⟩
  · rw [List.any_append]
    simp

/-- Helper: every path that is present before a scan, or is scanned by it, is
present afterwards. -/
theorem scan_run_any (meta : String → FileMeta) (run : Nat) :
    ∀ (tree : List String) (tbl : List ScanFileRow) (q : String),
      (tbl.any (fun row => row.path == q) = true ∨ q ∈ tree) →
      (scan_run meta run tbl tree).any (fun row => row.path == q) = true := by
  intro tree
  induction tree with
  | nil =>
    intro tbl q h
    rcases h with h | h
    · simpa [scan_run] using h
    · simp at h
  | cons p l ih =>
    intro tbl q h
    have hstep : scan_run meta run tbl (p :: l) =
        scan_run meta run (insert_file tbl (metaRow p (meta p) run)) l := rfl
    rw [hstep]
    rcases h with h | h
    · exact ih _ q (Or.inl (insert_file_any_mono _ _ _ h))
    · rcases List.mem_cons.mp h with rfl | hl
      · exact ih _ q (Or.inl (insert_file_any_self tbl (metaRow q (meta q) run)))
      · exact ih _ q (Or.inr hl)

/-- Helper: after upserting a row, every row at its path equals it. -/
theorem insert_file_rows_at (tbl : List ScanFileRow) (r : ScanFileRow) :
    ∀ row ∈ insert_file tbl r, row.path = r.path → row = r := by
  unfold insert_file
  split
  · intro row hrow hp
    rcases List.mem_map.mp hrow with ⟨x, hx, hfx⟩
    by_cases hr : (x.path == r.path) = true
    · rw [if_pos hr] at hfx
      exact hfx.symm
    · rw [if_neg hr] at hfx
      subst hfx
      exact absurd (by simp [hp]) hr
  · intro row hrow hp
    rename_i h
    rcases List.mem_append.mp hrow with hx | hx
    · exact absurd (List.any_eq_true.mpr ⟨row, hx, by simp [hp]⟩) h
    · simpa using hx

/-- Helper: upserting a row with a different path preserves any property of
the rows at a given path. -/
theorem insert_file_rows_at_other (tbl : List ScanFileRow) (r : ScanFileRow)
    (q : String) (hq : r.path ≠ q) (P : ScanFileRow → Prop)
    (h : ∀ row ∈ tbl, row.path = q → P row) :
    ∀ row ∈ insert_file tbl r, row.path = q → P row := by
  unfold insert_file
  split
  · intro row hrow hp
    rcases List.mem_map.mp hrow with ⟨x, hx, hfx⟩
    by_cases hr : (x.path == r.path) = true
    · rw [if_pos hr] at hfx
      subst hfx
      exact absurd hp hq
    · rw [if_neg hr] at hfx
      subst hfx
      exact h x hx hp
  · intro row hrow hp
    rcases List.mem_append.mp hrow with hx | hx
    · exact h row hx hp
    · have : row = r := by simpa using hx
      subst this
      exact absurd hp hq

/-- Helper: scanning paths other than `q` preserves any property of the rows
at `q`. -/
theorem scan_run_rows_at_other (meta : String → FileMeta) (run : Nat)
    (P : ScanFileRow → Prop) :
    ∀ (l : List String) (tbl : List ScanFileRow) (q : String), q ∉ l →
      (∀ row ∈ tbl, row.path = q → P row) →
      ∀ row ∈ scan_run meta run tbl l, row.path = q → P row := by
  intro l
  induction l with
  | nil =>
    intro tbl q _ h row hrow
    exact h row hrow
  | cons p l ih =>
    intro tbl q hq h
    have hpq : (metaRow p (meta p) run).path ≠ q := by
      simp only [metaRow]
      intro he
      exact hq (by simp [he])
    exact ih _ q (fun hql => hq (List.mem_cons_of_mem p hql))
      (insert_file_rows_at_other tbl _ q hpq P h)

/-- Helper: after a scan, every row whose path was scanned carries exactly
that path's freshly computed metadata. -/
theorem scan_run_meta_rows (meta : String → FileMeta) (run : Nat) :
    ∀ (tree : List String) (tbl : List ScanFileRow),
      ∀ row ∈ scan_run meta run tbl tree, row.path ∈ tree →
        row = metaRow row.path (meta row.path) row.scan_run_id := by
  intro tree
  induction tree with
  | nil =>
    intro tbl row _ hp
    simp at hp
  | cons p l ih =>
    intro tbl row hrow hp
    by_cases hpl : row.path ∈ l
    · exact ih _ row hrow hpl
    · have hq : row.path = p := by
        rcases List.mem_cons.mp hp with h | h
        · exact h
        · exact absurd h hpl
      have hpnl : p ∉ l := fun hc => hpl (hq ▸ hc)
      have hbase : ∀ x ∈ insert_file tbl (metaRow p (meta p) run),
          x.path = p → x = metaRow p (meta p) run := by
        intro x hx hxp
        exact insert_file_rows_at tbl _ x hx hxp
      have hthis := scan_run_rows_at_other meta run
        (fun x => x = metaRow p (meta p) run) l _ p hpnl hbase row hrow hq
      rw [hthis]
      simp [metaRow]

/-- Helper: rescanning a table in which every scanned path is present with
its current metadata only rewrites those rows' `scan_run_id`. -/
theorem scan_run_update_map (meta : String → FileMeta) (r2 : Nat) :
    ∀ (l : List String) (T : List ScanFileRow),
      (∀ p ∈ l, T.any (fun row => row.path == p) = true) →
      (∀ row ∈ T, row.path ∈ l →
        row = metaRow row.path (meta row.path) row.scan_run_id) →
      scan_run meta r2 T l =
        T.map fun row =>
          if row.path ∈ l then { row with scan_run_id := r2 } else row := by
  intro l
  induction l with
  | nil =>
    intro T _ _
    have hid : (fun (row : ScanFileRow) =>
        if row.path ∈ ([] : List String) then { row with scan_run_id := r2 } else row) =
        fun row => row := funext fun row => by simp
    rw [hid]
    simp [scan_run]
  | cons p l ih =>
    intro T hpres hmeta
    have hstep : scan_run meta r2 T (p :: l) =
        scan_run meta r2 (insert_file T (metaRow p (meta p) r2)) l := rfl
    have hins : insert_file T (metaRow p (meta p) r2) =
        T.map fun row => if row.path = p then { row with scan_run_id := r2 } else row := by
      unfold insert_file
      have hc : (T.any fun row => row.path == (metaRow p (meta p) r2).path) = true :=
        hpres p (List.mem_cons_self p l)
      rw [if_pos hc]
      refine List.map_congr_left fun x hx => ?_
      by_cases hxp : x.path = p
      · have hc2 : (x.path == (metaRow p (meta p) r2).path) = true := by
          simp [metaRow, hxp]
        rw [if_pos hc2, if_pos hxp]
        have hx2 := hmeta x hx (by simp [hxp])
        have h3 : ({ x with scan_run_id := r2 } : ScanFileRow) =
            { (metaRow x.path (meta x.path) x.scan_run_id) with scan_run_id := r2 } :=
          congrArg (fun y : ScanFileRow => { y with scan_run_id := r2 }) hx2
        rw [← hxp]
        exact h3.symm
      · have hc2 : ¬ ((x.path == (metaRow p (meta p) r2).path) = true) := by
          simp [metaRow, hxp]
        rw [if_neg hc2, if_neg hxp]
    have hpathf : ∀ row : ScanFileRow,
        ((fun row => if row.path = p then { row with scan_run_id := r2 } else row) row).path
          = row.path := by
      intro row
      by_cases hxp : row.path = p <;> simp [hxp]
    have hpres' : ∀ q ∈ l,
        (T.map fun row => if row.path = p then { row with scan_run_id := r2 } else row).any
          (fun row => row.path == q) = true := by
      intro q hq
      rcases List.any_eq_true.mp (hpres q (List.mem_cons_of_mem p hq)) with ⟨x, hx, hxq⟩
      refine List.any_eq_true.mpr ⟨_, List.mem_map_of_mem _ hx, ?_⟩
      simpa [hpathf x] using hxq
    have hmeta' : ∀ row ∈
        (T.map fun row => if row.path = p then { row with scan_run_id := r2 } else row),
        row.path ∈ l → row = metaRow row.path (meta row.path) row.scan_run_id := by
      intro row hrow hrl
      rcases List.mem_map.mp hrow with ⟨x, hx, hfx⟩
      subst hfx
      rw [hpathf x] at hrl
      have hx2 := hmeta x hx (List.mem_cons_of_mem p hrl)
      by_cases hxp : x.path = p
      · simp only [if_pos hxp]
        exact congrArg (fun y : ScanFileRow => { y with scan_run_id := r2 }) hx2
      · simp only [if_neg hxp]
        exact hx2
    rw [hstep, hins, ih _ hpres' hmeta', List.map_map]
    refine List.map_congr_left fun x _ => ?_
    by_cases hxp : x.path = p
    · simp only [Function.comp_apply, if_pos hxp]
      by_cases hpl : p ∈ l
      · rw [if_pos (by simp [hxp, hpl]), if_pos (by simp [hxp])]
      · rw [if_neg (by simp [hxp, hpl]), if_pos (by simp [hxp])]
    · simp only [Function.comp_apply, if_neg hxp]
      by_cases hpl : x.path ∈ l
      · rw [if_pos hpl, if_pos (by simp [hpl])]
      · rw [if_neg hpl, if_neg (by simp [hxp, hpl])]

/-- C7: rescanning an unchanged tree over the table left by the first scan
rewrites exactly the scanned rows with identical digest/size/MIME/mtime/ctime
values — the digest being the deterministic hash of the unchanged bytes — so
only `scan_run_id` changes; in particular the row count and every stored
digest and path are unchanged. -/
theorem scan_twice_idempotent (meta : String → FileMeta)
    (tbl : List ScanFileRow) (tree : List String) (r1 r2 : Nat) :
    scan_run meta r2 (scan_run meta r1 tbl tree) tree =
      (scan_run meta r1 tbl tree).map
        (fun row => if row.path ∈ tree then { row with scan_run_id := r2 } else row) ∧
    (scan_run meta r2 (scan_run meta r1 tbl tree) tree).length =
      (scan_run meta r1 tbl tree).length ∧
    (scan_run meta r2 (scan_run meta r1 tbl tree) tree).map (fun row => row.sha256) =
      (scan_run meta r1 tbl tree).map (fun row => row.sha256) ∧
    (scan_run meta r2 (scan_run meta r1 tbl tree) tree).map (fun row => row.path) =
      (scan_run meta r1 tbl tree).map (fun row => row.path) := by
  have hmap := scan_run_update_map meta r2 tree (scan_run meta r1 tbl tree)
    (fun p hp => scan_run_any meta r1 tree tbl p (Or.inr hp))
    (fun row hrow hp => scan_run_meta_rows meta r1 tree tbl row hrow hp)
  refine ⟨hmap, ?_, ?_, ?_⟩
  · rw [hmap, List.length_map]
  · rw [hmap, List.map_map]
    refine List.map_congr_left fun x _ => ?_
    by_cases h : x.path ∈ tree <;> simp [h]
  · rw [hmap, List.map_map]
    refine List.map_congr_left fun x _ => ?_
    by_cases h : x.path ∈ tree <;> simp [h]

/-- Helper: a directory listing walks to completion as soon as the recursive
call succeeds on every non-pruned, non-symlink-blocked directory entry. -/
theorem walk_entries_isSome (recur : Nat → String → Option (List String))
    (follow : Bool) (skipDirs : List String) (pfx : String) :
    ∀ l : List FSEntry,
      (∀ e ∈ l, e.kind = EntryKind.dirEntry → (follow || !e.isSymlink) = true →
        e.name ∉ skipDirs → (recur e.target (pfx ++ "/" ++ e.name)).isSome = true) →
      (walk_entries recur follow skipDirs pfx l).isSome = true := by
  intro l
  induction l with
  | nil => intro _; simp [walk_entries]
  | cons e rest ih =>
    intro h
    have hrest := ih fun x hx => h x (List.mem_cons_of_mem e hx)
    cases hk : e.kind with
    | dirEntry =>
      by_cases hskipn : e.name ∈ skipDirs
      · simpa [walk_entries, hk, hskipn] using hrest
      · by_cases hfollow : (follow || !e.isSymlink) = true
        · have hrec := h e (List.mem_cons_self e rest) hk hfollow hskipn
          rcases Option.isSome_iff_exists.mp hrec with ⟨sub, hsub⟩
          rcases Option.isSome_iff_exists.mp hrest with ⟨restFiles, hrestF⟩
          simp [walk_entries, hk, hskipn, hfollow, hsub, hrestF]
        · have hf : (follow || !e.isSymlink) = false := by
            simpa using hfollow
          simpa [walk_entries, hk, hskipn, hf] using hrest
    | fileEntry =>
      by_cases hfollow : (follow || !e.isSymlink) = true
      · simpa [walk_entries, hk, hfollow] using hrest
      · have hf : (follow || !e.isSymlink) = false := by simpa using hfollow
        simpa [walk_entries, hk, hf] using hrest
    | otherEntry => simpa [walk_entries, hk] using hrest

/-- C9: with `follow_symlinks=false` the walk never recurses into a symlinked
directory entry, so whenever the non-symlink directory edges admit a
decreasing depth measure — as the physical directory structure of a source
tree does, no matter what cycles its symlinks form — the walker finishes on
any fuel exceeding the root's depth. -/
theorem walk_dir_terminates (fs : Filesystem) (skipDirs : List String)
    (d : Nat → Nat)
    (hd : ∀ n, ∀ e ∈ fs.entries n, e.kind = EntryKind.dirEntry →
      e.isSymlink = false → d e.target < d n) :
    ∀ fuel node pfx, d node < fuel →
      (walk_dir fs false skipDirs fuel node pfx).isSome = true := by
  intro fuel
  induction fuel with
  | zero => intro node pfx h; exact absurd h (Nat.not_lt_zero _)
  | succ f ih =>
    intro node pfx h
    simp only [walk_dir]
    apply walk_entries_isSome
    intro e he hk hfollow _
    have hsym : e.isSymlink = false := by simpa using hfollow
    exact ih e.target _ (by
      have := hd node e he hk hsym
      omega)

/-- Witness: the walker completes on the concrete symlink-cycle filesystem
with fuel 2. -/
theorem walk_dir_terminates_witness :
    (walk_dir fsC9 false [".git"] 2 0 "/src").isSome = true :=
  walk_dir_terminates fsC9 [".git"] depthC9
    (by
      intro n e he hk hs
      by_cases h0 : n = 0
      · subst h0
        simp [fsC9] at he
        subst he
        simp [depthC9]
      · by_cases h1 : n = 1
        · subst h1
          simp [fsC9] at he
          rcases he with he | he <;> subst he <;> simp_all
        · simp [fsC9, h0, h1] at he)
    2 0 "/src" (by decide)

end Lucien
